import Mathlib

/- Verification of the PDF bookmark generator core
   (src/core/bookmark_generator.py): outline store, offset engine,
   TOC text parser and outline writer, shallowly embedded in Lean. -/

set_option maxRecDepth 4000

namespace PdfBookmark

/-- One outline entry: the dict `{'title': ..., 'page': ..., 'level': ...}`
built by the parser and the edit operations. Pages and levels are Python
ints, embedded as `Int`; a missing page is `none`. -/
structure Bookmark where
  title : String
  page : Option Int
  level : Int
deriving DecidableEq

/-- One undo snapshot, as captured by `save_state`:
`{'bookmarks', 'original_bookmarks', 'offset'}`. -/
structure Snapshot where
  bookmarks : List Bookmark
  original_bookmarks : List Bookmark
  offset : Int
deriving DecidableEq

/-- The mutable state of `PDFBookmarkGenerator` that the claims touch:
the two parallel entry sequences, the offset and the bounded undo
history (`deque(maxlen=5)`, most recent snapshot first here). -/
structure Store where
  bookmarks : List Bookmark
  original_bookmarks : List Bookmark
  offset : Int
  history : List Snapshot
deriving DecidableEq

/-- Replace the element at position `n` by `f` applied to it; identity
when `n` is out of range (guards in the source keep it in range). -/
def modifyAt (f : α → α) : Nat → List α → List α
  | _, [] => []
  | 0, a :: l => f a :: l
  | n + 1, a :: l => a :: modifyAt f n l

/-- Delete the element at position `n` (Python `del l[n]` under the
source's `0 <= n < len` guard); identity when out of range. -/
def removeAt : Nat → List α → List α
  | _, [] => []
  | 0, _ :: l => l
  | n + 1, a :: l => a :: removeAt n l

/-- Swap positions `n` and `n+1` (the simultaneous assignment in
`move_bookmark`); identity when `n+1` is out of range. -/
def swapAdj : Nat → List α → List α
  | 0, a :: b :: l => b :: a :: l
  | n + 1, a :: l => a :: swapAdj n l
  | _, l => l

/-- `save_state`: push a deep copy of the editable state onto the
history deque; `maxlen=5` drops the oldest snapshot. -/
def save_state (s : Store) : Store :=
  { s with history :=
      ⟨s.bookmarks, s.original_bookmarks, s.offset⟩ :: s.history.take 4 }

/-- `undo`: with more than one retained snapshot, pop the current one and
restore the previous; otherwise return the failure signal `False` and
change nothing. -/
def undo (s : Store) : Store × Bool :=
  match s.history with
  | _ :: prev :: rest =>
      ({ s with bookmarks := prev.bookmarks,
                original_bookmarks := prev.original_bookmarks,
                offset := prev.offset,
                history := prev :: rest }, true)
  | _ => (s, false)

/-- `add_bookmark`: append the same new entry to both sequences. -/
def add_bookmark (s : Store) (title : String) (page : Option Int)
    (level : Int) : Store :=
  let s1 := save_state s
  { s1 with bookmarks := s1.bookmarks ++ [⟨title, page, level⟩],
            original_bookmarks := s1.original_bookmarks ++ [⟨title, page, level⟩] }

/-- `remove_bookmark`: under the `0 <= index < len(self.bookmarks)` guard,
delete the index from both sequences; otherwise do nothing at all. -/
def remove_bookmark (s : Store) (i : Int) : Store :=
  if 0 ≤ i ∧ i < (s.bookmarks.length : Int) then
    let s1 := save_state s
    { s1 with bookmarks := removeAt i.toNat s1.bookmarks,
              original_bookmarks := removeAt i.toNat s1.original_bookmarks }
  else s

/-- The partial field update `update_bookmark` performs on an entry:
each field given (not `None`) overwrites, the rest stay. -/
def patchBookmark (t : Option String) (p : Option Int) (l : Option Int)
    (b : Bookmark) : Bookmark :=
  { title := t.getD b.title,
    page := match p with | some v => some v | none => b.page,
    level := l.getD b.level }

/-- `update_bookmark`: under the index guard, write the supplied fields
into the entry at `index` in both sequences; otherwise do nothing. -/
def update_bookmark (s : Store) (i : Int) (t : Option String)
    (p : Option Int) (l : Option Int) : Store :=
  if 0 ≤ i ∧ i < (s.bookmarks.length : Int) then
    let s1 := save_state s
    { s1 with bookmarks := modifyAt (patchBookmark t p l) i.toNat s1.bookmarks,
              original_bookmarks :=
                modifyAt (patchBookmark t p l) i.toNat s1.original_bookmarks }
  else s

/-- `move_bookmark`: under the index guard, swap with the neighbour in
the given direction in both sequences; at a boundary (or an unknown
direction string) only the snapshot is recorded and the sequences stay. -/
def move_bookmark (s : Store) (i : Int) (direction : String) : Store :=
  if 0 ≤ i ∧ i < (s.bookmarks.length : Int) then
    let s1 := save_state s
    if direction = "up" ∧ 0 < i then
      { s1 with bookmarks := swapAdj (i.toNat - 1) s1.bookmarks,
                original_bookmarks := swapAdj (i.toNat - 1) s1.original_bookmarks }
    else if direction = "down" ∧ i < (s.bookmarks.length : Int) - 1 then
      { s1 with bookmarks := swapAdj i.toNat s1.bookmarks,
                original_bookmarks := swapAdj i.toNat s1.original_bookmarks }
    else s1
  else s

/-- The title prefixing of one batch-update index. -/
def prefixTitle (pre : String) (b : Bookmark) : Bookmark :=
  { b with title := pre ++ b.title }

/-- The page shift of one batch-update index: add the offset when the
page is non-null, leave a null page alone. -/
def shiftPage (off : Int) (b : Bookmark) : Bookmark :=
  { b with page := b.page.map (· + off) }

/-- Overwrite an entry's level with an already-clamped value. -/
def setLevel (cl : Int) (b : Bookmark) : Bookmark :=
  { b with level := cl }

/-- Apply `f` to the entry at `idx` in both sequences of the store. -/
def modifyBoth (f : Bookmark → Bookmark) (idx : Nat) (s : Store) : Store :=
  { s with bookmarks := modifyAt f idx s.bookmarks,
           original_bookmarks := modifyAt f idx s.original_bookmarks }

/-- The `title_prefix` part of one batch-update index (`None` skips). -/
def applyTp : Option String → Nat → Store → Store
  | some pre, idx, s => modifyBoth (prefixTitle pre) idx s
  | none, _, s => s

/-- The `page_offset` part of one batch-update index (`None` skips). -/
def applyPo : Option Int → Nat → Store → Store
  | some off, idx, s => modifyBoth (shiftPage off) idx s
  | none, _, s => s

/-- The `level_offset` part of one batch-update index: the new level is
read from the `bookmarks` entry, clamped to `[0,3]`, and written to both
sequences (`None` skips). -/
def applyLo : Option Int → Nat → Store → Store
  | some d, idx, s =>
    modifyBoth
      (setLevel (max 0 (min 3 ((s.bookmarks.getD idx ⟨"", none, 0⟩).level + d))))
      idx s
  | none, _, s => s

/-- One index of `batch_update_bookmarks`: under the per-index guard,
prefix the title, shift a non-null page, and clamp-adjust the level. -/
def batchStep (tp : Option String) (po : Option Int) (lo : Option Int)
    (s : Store) (i : Int) : Store :=
  if 0 ≤ i ∧ i < (s.bookmarks.length : Int) then
    applyLo lo i.toNat (applyPo po i.toNat (applyTp tp i.toNat s))
  else s

/-- `batch_update_bookmarks`: one snapshot, then the per-index update
folded over the index list in order. -/
def batch_update_bookmarks (s : Store) (indices : List Int)
    (tp : Option String) (po : Option Int) (lo : Option Int) : Store :=
  indices.foldl (batchStep tp po lo) (save_state s)

/-- The body of `apply_offset`'s loop: copy the entry, adding `offset`
to its page when the page is non-null. -/
def offsetEntry (offset : Int) (b : Bookmark) : Bookmark :=
  match b.page with
  | some p => { b with page := some (p + offset) }
  | none => b

/-- `apply_offset`: pure map adding `offset` to every non-null page,
returning fresh entries. -/
def apply_offset (bookmarks : List Bookmark) (offset : Int) : List Bookmark :=
  bookmarks.map (offsetEntry offset)

/-- Python `str.strip()`: remove leading and trailing whitespace. -/
def pyStrip (l : List Char) : List Char :=
  ((l.dropWhile Char.isWhitespace).reverse.dropWhile Char.isWhitespace).reverse

/-- Python `text.split(newline)`. -/
def splitLines : List Char → List (List Char)
  | [] => [[]]
  | c :: cs =>
    if c = '\n' then [] :: splitLines cs
    else
      match splitLines cs with
      | [] => [[c]]
      | l :: ls => (c :: l) :: ls

/-- The fixed marker-glyph set stripped from the start of a line. -/
def markers : List Char := ['#', '*', '-', '•', '★', '☆', '▶', '►', '→', '⇒']

/-- The marker-stripping `while` loop: as long as the line starts with a
marker glyph, drop it and re-strip; fuelled by the line length, which
bounds its iterations. -/
def stripMarkersF : Nat → List Char → List Char
  | 0, l => l
  | fuel + 1, l =>
    match l with
    | c :: rest => if markers.contains c then stripMarkersF fuel (pyStrip rest) else l
    | [] => []

def stripMarkers (l : List Char) : List Char := stripMarkersF l.length l

def dropTrailingWs (l : List Char) : List Char :=
  (l.reverse.dropWhile Char.isWhitespace).reverse

def trailingDigits (l : List Char) : List Char :=
  (l.reverse.takeWhile Char.isDigit).reverse

def digitsToNat (l : List Char) : Nat :=
  l.foldl (fun a c => a * 10 + (c.toNat - '0'.toNat)) 0

/-- The trailing page-number search `(\d+)(?:\s*)$`: the leftmost match
is the maximal digit run preceding the trailing whitespace; on a hit the
page is that run's value and the title is the stripped text before it. -/
def extractPage (l : List Char) : Option Int × List Char :=
  let core := dropTrailingWs l
  let ds := trailingDigits core
  if ds.isEmpty then (none, l)
  else (some ((digitsToNat ds : Nat) : Int),
    pyStrip (core.take (core.length - ds.length)))

/-- One left-to-right pass of the substitution removing runs of three or
more dots anywhere and a run of two or more whitespace characters at the
end of the title; fuelled by the title length. -/
def rdlF : Nat → List Char → List Char
  | 0, l => l
  | _ + 1, [] => []
  | fuel + 1, c :: rest =>
    let dots := ((c :: rest).takeWhile (· = '.')).length
    if 3 ≤ dots then rdlF fuel ((c :: rest).drop dots)
    else if (c :: rest).all Char.isWhitespace && !rest.isEmpty then []
    else c :: rdlF fuel rest

def removeDotLeaders (l : List Char) : List Char := rdlF l.length l

/-- Count the dots of the greedy dotted chapter-numbering suffix after
the first digit run, as matched by `^(\d+\.)*\d+`. -/
def dotGo : Nat → List Char → Nat
  | 0, _ => 0
  | fuel + 1, l =>
    match l with
    | '.' :: rest =>
      let d2 := (rest.takeWhile Char.isDigit).length
      if d2 = 0 then 0 else 1 + dotGo fuel (rest.drop d2)
    | _ => 0

/-- The dotted chapter-numbering check `^(\d+\.)*\d+` on the title:
`none` when the title does not start with a digit, else the number of
dots in the matched prefix. -/
def dotCount (l : List Char) : Option Nat :=
  let d := (l.takeWhile Char.isDigit).length
  if d = 0 then none else some (dotGo l.length (l.drop d))

/-- The `\s+(.+)` part of the Markdown heading regex, applied to the
line after its hash run: a whitespace run then a non-empty greedy
capture (when everything after the first whitespace is whitespace, the
engine backtracks and the capture is the final character). -/
def mdTail : List Char → Option (List Char)
  | [] => none
  | c :: rest =>
    if Char.isWhitespace c then
      let afterWs := (c :: rest).dropWhile Char.isWhitespace
      if afterWs.isEmpty then
        if 2 ≤ (c :: rest).length then
          some ((c :: rest).drop ((c :: rest).length - 1))
        else none
      else some afterWs
    else none

/-- The Markdown heading match `^(#{1,4})\s+(.+)` on the original line:
`some (hashCount, capturedRemainder)` on a hit. -/
def mdMatch (l : List Char) : Option (Nat × List Char) :=
  let h := (l.takeWhile (· = '#')).length
  if 1 ≤ h ∧ h ≤ 4 then (mdTail (l.drop h)).map (fun rest => (h, rest))
  else none

def listStartsWith : List Char → List Char → Bool
  | [], _ => true
  | _ :: _, [] => false
  | a :: as, b :: bs => a == b && listStartsWith as bs

/-- Python `needle in hay` substring containment. -/
def containsSub : List Char → List Char → Bool
  | needle, [] => needle.isEmpty
  | needle, c :: rest => listStartsWith needle (c :: rest) || containsSub needle rest

/-- An anchored character-class match `^[cls]+[term]`: a non-empty run
of class characters followed by one terminator character (the class and
terminator sets used here are disjoint, so the greedy run is exact). -/
def classThen (cls term : List Char) (l : List Char) : Bool :=
  let run := l.takeWhile (fun c => cls.contains c)
  let rest := l.drop run.length
  !run.isEmpty &&
    (match rest with
     | c :: _ => term.contains c
     | [] => false)

def chineseNumerals : List Char :=
  ['一', '二', '三', '四', '五', '六', '七', '八', '九', '十', '百', '千', '万']

def romanChars : List Char := ['I', 'V', 'X', 'L', 'C', 'D', 'M']

def kwFront : List (List Char) :=
  ["前言", "序言", "附录", "参考文献", "索引"].map String.data

def kwChapter : List (List Char) := ["章节", "章", "篇"].map String.data

def kwSection : List (List Char) := ["节", "项", "条"].map String.data

def kwSubsection : List (List Char) := ["小节", "子项", "子条"].map String.data

def anyKw (kws : List (List Char)) (title : List Char) : Bool :=
  kws.any (fun k => containsSub k title)

/-- The dense rank of a Markdown hash-count among the distinct observed
hash-counts: its index in the sorted set, i.e. the number of distinct
observed values below it. -/
def mdRank (obs : List Nat) (h : Nat) : Nat :=
  ((obs.filter (· < h)).dedup).length

/-- `level_mapping.get(h, h - 1)`: the dense rank when `h` was observed
in the pre-pass, else the fallback `h - 1`. -/
def mappingGet (obs : List Nat) (h : Nat) : Nat :=
  if obs.contains h then mdRank obs h else h - 1

/-- Methods 1 and 2 of the level resolution: the indentation level from
the original line (after removing one marker glyph and stripping), then
the dotted chapter-numbering raise. -/
def baseLevel (origLine title1 : List Char) : Int :=
  let otp := match origLine with
    | c :: rest => if markers.contains c then pyStrip rest else origLine
    | [] => origLine
  let ls := (otp.takeWhile Char.isWhitespace).length
  let lvl1 : Int := if 0 < ls then ((min 3 (ls / 2) : Nat) : Int) else 0
  match dotCount title1 with
  | some d => max lvl1 (d : Int)
  | none => lvl1

/-- Methods 4-6 of the level resolution, applied to the (possibly
Markdown-replaced) title: Chinese-numeral and Roman-numeral floors,
front-matter and chapter keyword floors, then the section (+1) and
subsection (+2) keyword raises capped at 3. -/
def levelAfterKeywords (title2 : List Char) (lvl : Int) : Int :=
  let lvl4 := if classThen chineseNumerals ['、', ':'] title2 then max lvl 0 else lvl
  let lvl5 := if classThen romanChars ['.', '、', ':'] title2 then max lvl4 0 else lvl4
  let lvl6 := if anyKw kwFront title2 then max lvl5 0 else lvl5
  let lvl7 := if anyKw kwChapter title2 then max lvl6 0 else lvl6
  let lvl8 := if anyKw kwSection title2 then min (lvl7 + 1) 3 else lvl7
  if anyKw kwSubsection title2 then min (lvl8 + 2) 3 else lvl8

/-- The title of a line before the Markdown branch: marker-stripped,
page digits removed, dot leaders removed, stripped. -/
def parsedTitle1 (origLine : List Char) : List Char :=
  pyStrip (removeDotLeaders (extractPage (stripMarkers origLine)).2)

/-- Parse one (already stripped, non-empty) line given the pre-pass list
of observed Markdown hash-counts: marker stripping, page extraction,
dot-leader removal, then the level resolution in source order. -/
def parseLine (obs : List Nat) (origLine : List Char) : Bookmark :=
  let page := (extractPage (stripMarkers origLine)).1
  let lvl3 : Int := match mdMatch origLine with
    | some (h, _) => (mappingGet obs h : Int)
    | none => baseLevel origLine (parsedTitle1 origLine)
  let title2 := match mdMatch origLine with
    | some (_, rest) => rest
    | none => parsedTitle1 origLine
  { title := String.mk title2, page := page,
    level := levelAfterKeywords title2 lvl3 }

/-- Split the pasted text into stripped, non-empty lines. -/
def tocLines (text : List Char) : List (List Char) :=
  ((splitLines (pyStrip text)).map pyStrip).filter (fun l => !l.isEmpty)

/-- The Markdown pre-pass: the hash-counts observed across all lines, in
line order (duplicates kept; the rank computation deduplicates). -/
def mdLevels (lines : List (List Char)) : List Nat :=
  lines.filterMap (fun l => (mdMatch l).map Prod.fst)

/-- `parse_toc_text`: the full TOC parser, producing the ordered entry
sequence. -/
def parse_toc_text (text : String) : List Bookmark :=
  let lines := tocLines text.data
  lines.map (parseLine (mdLevels lines))

/-- The dot level a title exhibits: the dot count of its dotted
chapter-numbering prefix, or 0 when it has none. -/
def dotLevelL (l : List Char) : Int :=
  match dotCount l with
  | some d => (d : Int)
  | none => 0

/-- `dotLevelL` on an entry's final title string. -/
def titleDotLevel (title : String) : Int := dotLevelL title.data

/-- One outline node attached by the Outline Writer: the bookmark index
it came from, its title, the 0-based physical page index passed to the
PDF collaborator, and the bookmark index of its parent node (`none` for
a top-level node). -/
structure Node where
  idx : Nat
  title : String
  page0 : Nat
  parent : Option Nat
deriving DecidableEq

/-- The writer's page guard: non-null and within `[1, pageCount]`. -/
def validPage (b : Bookmark) (pageCount : Nat) : Bool :=
  match b.page with
  | some p => decide (1 ≤ p) && decide (p ≤ (pageCount : Int))
  | none => false

/-- `self.bookmarks[key]['level']` as read by the parent search (keys
recorded by the loop are always in range). -/
def levelAt (bs : List Bookmark) (k : Nat) : Int :=
  (bs.getD k ⟨"", none, 0⟩).level

/-- The parent search of the writer: scan the recorded keys in reverse
insertion order for the first `key < i` whose entry's level is strictly
below the current level. -/
def parentSearch (bs : List Bookmark) (keys : List Nat) (i : Nat)
    (lvl : Int) : Option Nat :=
  keys.reverse.find? (fun k => decide (k < i) && decide (levelAt bs k < lvl))

/-- The writer loop's running state: the `bookmark_map` keys in
insertion order, the attached nodes, the `bookmarks_added` counter and
the indices warned about. -/
structure GenState where
  keys : List Nat
  nodes : List Node
  added : Nat
  warnings : List Nat
deriving DecidableEq

def emptyGen : GenState := ⟨[], [], 0, []⟩

/-- One iteration of the writer loop at index `i`: attach a top-level
node for a valid-page level-0 entry, search a parent and attach for a
positive level (top-level fallback when the search fails), silently
skip a negative level, and warn on a null or out-of-range page. -/
def attachStep (bs : List Bookmark) (pc : Nat) (st : GenState) (i : Nat)
    (b : Bookmark) : GenState :=
  match b.page with
  | some p =>
    if 1 ≤ p ∧ p ≤ (pc : Int) then
      if b.level = 0 then
        let n : Node := ⟨i, b.title, (p - 1).toNat, none⟩
        { st with keys := st.keys ++ [i], nodes := st.nodes ++ [n], added := st.added + 1 }
      else if 0 < b.level then
        let n : Node := ⟨i, b.title, (p - 1).toNat, parentSearch bs st.keys i b.level⟩
        { st with keys := st.keys ++ [i], nodes := st.nodes ++ [n], added := st.added + 1 }
      else st
    else { st with warnings := st.warnings ++ [i] }
  | none => { st with warnings := st.warnings ++ [i] }

/-- The writer loop from index `i` over the remaining entries. -/
def attachGo (bs : List Bookmark) (pc : Nat) :
    Nat → List Bookmark → GenState → GenState
  | _, [], st => st
  | i, b :: rest, st => attachGo bs pc (i + 1) rest (attachStep bs pc st i b)

/-- The whole writer loop of `generate_pdf_with_bookmarks` over the
entry sequence, against a document of `pc` pages. -/
def attachAll (bs : List Bookmark) (pc : Nat) : GenState :=
  attachGo bs pc 0 bs emptyGen

/-- `generate_pdf_with_bookmarks` with the PDF collaborator abstracted:
under its preconditions (library available, file uploaded) it fails
early on an empty bookmark list and otherwise runs the attach loop to
completion and reports success. -/
def generate_pdf_with_bookmarks (bs : List Bookmark) (pc : Nat) :
    Bool × GenState :=
  if bs.isEmpty then (false, emptyGen) else (true, attachAll bs pc)

/-- The three-entry sequence of the C5 example:
levels 0, 1, 0 at pages 1, 2, 3. -/
def demo5 : List Bookmark :=
  [⟨"A", some 1, 0⟩, ⟨"B", some 2, 1⟩, ⟨"C", some 3, 0⟩]

/-- A sequence with an invalid (null) page at index 1, used by the C4
witness. -/
def genSample : List Bookmark :=
  [⟨"A", some 1, 0⟩, ⟨"B", none, 1⟩, ⟨"C", some 99, 0⟩]

/-- Two entries describe the same logical entry when their titles and
levels agree (pages may differ by the applied offset). -/
def EAlign (a b : Bookmark) : Prop := a.title = b.title ∧ a.level = b.level

instance (a b : Bookmark) : Decidable (EAlign a b) := instDecidableAnd

/-- The index-alignment invariant of the two sequences: same length,
and index-by-index the entries describe the same logical entry. -/
def Aligned : List Bookmark → List Bookmark → Prop
  | [], [] => True
  | a :: c, b :: o => EAlign a b ∧ Aligned c o
  | _, _ => False

instance Aligned.dec : (c o : List Bookmark) → Decidable (Aligned c o)
  | [], [] => .isTrue trivial
  | [], _ :: _ => .isFalse fun h => h
  | _ :: _, [] => .isFalse fun h => h
  | _ :: _, _ :: _ => @instDecidableAnd _ _ _ (Aligned.dec _ _)

/-- Index alignment for a whole store. -/
def AlignedStore (s : Store) : Prop :=
  Aligned s.bookmarks s.original_bookmarks

instance (s : Store) : Decidable (AlignedStore s) := Aligned.dec _ _

/-- A concrete aligned store used by the witnesses: the two sequences
agree in titles and levels while the pages differ by the offset 1. -/
def sampleStore : Store :=
  { bookmarks := [⟨"Intro", some 2, 0⟩, ⟨"Body", some 4, 1⟩],
    original_bookmarks := [⟨"Intro", some 1, 0⟩, ⟨"Body", some 3, 1⟩],
    offset := 1,
    history := [] }

theorem EAlign.refl (a : Bookmark) : EAlign a a := ⟨rfl, rfl⟩

theorem Aligned.length_eq : ∀ {c o : List Bookmark}, Aligned c o →
    c.length = o.length
  | [], [], _ => rfl
  | _ :: _, _ :: _, ⟨_, h⟩ => by simpa using Aligned.length_eq h

theorem Aligned.append_one : ∀ {c o : List Bookmark}, Aligned c o →
    ∀ {x y : Bookmark}, EAlign x y → Aligned (c ++ [x]) (o ++ [y])
  | [], [], _, _, _, hxy => ⟨hxy, trivial⟩
  | _ :: _, _ :: _, ⟨hab, h⟩, _, _, hxy => ⟨hab, Aligned.append_one h hxy⟩

theorem modifyAt_nil (f : α → α) (n : Nat) :
    PdfBookmark.modifyAt f n ([] : List α) = [] := by cases n <;> rfl

theorem removeAt_nil (n : Nat) :
    PdfBookmark.removeAt n ([] : List α) = [] := by cases n <;> rfl

theorem swapAdj_nil (n : Nat) :
    PdfBookmark.swapAdj n ([] : List α) = [] := by cases n <;> rfl

theorem Aligned.modifyAt {f g : Bookmark → Bookmark}
    (hfg : ∀ a b, EAlign a b → EAlign (f a) (g b)) :
    ∀ (n : Nat) {c o : List Bookmark}, Aligned c o →
      Aligned (PdfBookmark.modifyAt f n c) (PdfBookmark.modifyAt g n o)
  | n, [], [], _ => by rw [modifyAt_nil f n, modifyAt_nil g n]; exact trivial
  | 0, _ :: _, _ :: _, ⟨hab, h⟩ => ⟨hfg _ _ hab, h⟩
  | n + 1, _ :: _, _ :: _, ⟨hab, h⟩ => ⟨hab, Aligned.modifyAt hfg n h⟩

theorem Aligned.removeAt : ∀ (n : Nat) {c o : List Bookmark}, Aligned c o →
    Aligned (PdfBookmark.removeAt n c) (PdfBookmark.removeAt n o)
  | n, [], [], _ => by rw [removeAt_nil n]; exact trivial
  | 0, _ :: _, _ :: _, ⟨_, h⟩ => h
  | n + 1, _ :: _, _ :: _, ⟨hab, h⟩ => ⟨hab, Aligned.removeAt n h⟩

theorem Aligned.swapAdj : ∀ (n : Nat) {c o : List Bookmark}, Aligned c o →
    Aligned (PdfBookmark.swapAdj n c) (PdfBookmark.swapAdj n o)
  | n, [], [], _ => by rw [swapAdj_nil n]; exact trivial
  | 0, [_], [_], h => h
  | 0, _ :: _ :: _, _ :: _ :: _, ⟨hab, hab', h⟩ => ⟨hab', hab, h⟩
  | n + 1, _ :: _, _ :: _, ⟨hab, h⟩ => ⟨hab, Aligned.swapAdj n h⟩

theorem alignedStore_save_state {s : Store} (h : AlignedStore s) :
    AlignedStore (save_state s) := h

theorem alignedStore_add {s : Store} (h : AlignedStore s)
    (t : String) (p : Option Int) (l : Int) :
    AlignedStore (add_bookmark s t p l) :=
  Aligned.append_one h (EAlign.refl _)

theorem alignedStore_remove {s : Store} (h : AlignedStore s) (i : Int) :
    AlignedStore (remove_bookmark s i) := by
  unfold remove_bookmark
  split
  · exact Aligned.removeAt _ h
  · exact h

theorem eAlign_patch (t : Option String) (p : Option Int) (l : Option Int)
    {a b : Bookmark} (hab : EAlign a b) :
    EAlign (patchBookmark t p l a) (patchBookmark t p l b) := by
  obtain ⟨h1, h2⟩ := hab
  exact ⟨by simp [patchBookmark, h1], by simp [patchBookmark, h2]⟩

theorem alignedStore_update {s : Store} (h : AlignedStore s) (i : Int)
    (t : Option String) (p : Option Int) (l : Option Int) :
    AlignedStore (update_bookmark s i t p l) := by
  unfold update_bookmark
  split
  · exact Aligned.modifyAt (fun _ _ => eAlign_patch t p l) _ h
  · exact h

theorem alignedStore_move {s : Store} (h : AlignedStore s) (i : Int)
    (d : String) : AlignedStore (move_bookmark s i d) := by
  unfold move_bookmark
  split
  · split
    · exact Aligned.swapAdj _ h
    · split
      · exact Aligned.swapAdj _ h
      · exact h
  · exact h

theorem alignedStore_modifyBoth {s : Store} (h : AlignedStore s)
    (f : Bookmark → Bookmark) (hf : ∀ a b, EAlign a b → EAlign (f a) (f b))
    (idx : Nat) : AlignedStore (modifyBoth f idx s) :=
  Aligned.modifyAt hf idx h

theorem alignedStore_applyTp {s : Store} (h : AlignedStore s)
    (tp : Option String) (idx : Nat) : AlignedStore (applyTp tp idx s) := by
  cases tp with
  | some pre =>
    exact alignedStore_modifyBoth h (prefixTitle pre)
      (fun a b hab => ⟨congrArg (pre ++ ·) hab.1, hab.2⟩) idx
  | none => exact h

theorem alignedStore_applyPo {s : Store} (h : AlignedStore s)
    (po : Option Int) (idx : Nat) : AlignedStore (applyPo po idx s) := by
  cases po with
  | some off =>
    exact alignedStore_modifyBoth h (shiftPage off)
      (fun a b hab => ⟨hab.1, hab.2⟩) idx
  | none => exact h

theorem alignedStore_applyLo {s : Store} (h : AlignedStore s)
    (lo : Option Int) (idx : Nat) : AlignedStore (applyLo lo idx s) := by
  cases lo with
  | some d =>
    exact alignedStore_modifyBoth h (setLevel _) (fun a b hab => ⟨hab.1, rfl⟩) idx
  | none => exact h

theorem alignedStore_batchStep {s : Store} (h : AlignedStore s)
    (tp : Option String) (po : Option Int) (lo : Option Int) (i : Int) :
    AlignedStore (batchStep tp po lo s i) := by
  unfold batchStep
  split
  · exact alignedStore_applyLo
      (alignedStore_applyPo (alignedStore_applyTp h tp _) po _) lo _
  · exact h

theorem alignedStore_batch {s : Store} (h : AlignedStore s)
    (indices : List Int) (tp : Option String) (po : Option Int)
    (lo : Option Int) :
    AlignedStore (batch_update_bookmarks s indices tp po lo) := by
  unfold batch_update_bookmarks
  have key : ∀ (l : List Int) (st : Store), AlignedStore st →
      AlignedStore (l.foldl (batchStep tp po lo) st) := by
    intro l
    induction l with
    | nil => intro st hst; exact hst
    | cons a l ih =>
      intro st hst
      exact ih _ (alignedStore_batchStep hst tp po lo a)
  exact key indices (save_state s) h

/-- C1: starting from a store whose `bookmarks` and `original_bookmarks`
sequences are index-aligned (equal length, same title and level at every
index), each of the five index-based edit operations — add, remove,
update, move and batch-update — leaves the two sequences index-aligned
and of equal length: the structural change and the written field values
are applied at the same indices in both sequences. -/
theorem claim_C1_store_ops_alignment (s : Store) (h : AlignedStore s)
    (t : String) (p : Option Int) (l : Int) (i : Int)
    (ut : Option String) (up : Option Int) (ul : Option Int) (d : String)
    (indices : List Int) (tp : Option String) (po : Option Int)
    (lo : Option Int) :
    (AlignedStore (add_bookmark s t p l) ∧
      (add_bookmark s t p l).bookmarks.length =
        (add_bookmark s t p l).original_bookmarks.length) ∧
    (AlignedStore (remove_bookmark s i) ∧
      (remove_bookmark s i).bookmarks.length =
        (remove_bookmark s i).original_bookmarks.length) ∧
    (AlignedStore (update_bookmark s i ut up ul) ∧
      (update_bookmark s i ut up ul).bookmarks.length =
        (update_bookmark s i ut up ul).original_bookmarks.length) ∧
    (AlignedStore (move_bookmark s i d) ∧
      (move_bookmark s i d).bookmarks.length =
        (move_bookmark s i d).original_bookmarks.length) ∧
    (AlignedStore (batch_update_bookmarks s indices tp po lo) ∧
      (batch_update_bookmarks s indices tp po lo).bookmarks.length =
        (batch_update_bookmarks s indices tp po lo).original_bookmarks.length) := by
  have h1 := alignedStore_add h t p l
  have h2 := alignedStore_remove h i
  have h3 := alignedStore_update h i ut up ul
  have h4 := alignedStore_move h i d
  have h5 := alignedStore_batch h indices tp po lo
  exact ⟨⟨h1, h1.length_eq⟩, ⟨h2, h2.length_eq⟩, ⟨h3, h3.length_eq⟩,
    ⟨h4, h4.length_eq⟩, ⟨h5, h5.length_eq⟩⟩

/-- Witness for C1 at the concrete store `sampleStore`. -/
theorem claim_C1_store_ops_alignment_witness :
    AlignedStore sampleStore ∧
    AlignedStore (add_bookmark sampleStore "Annex" none 0) ∧
    AlignedStore (remove_bookmark sampleStore 1) ∧
    AlignedStore (update_bookmark sampleStore 1 (some "Part") none (some 2)) ∧
    AlignedStore (move_bookmark sampleStore 1 "up") ∧
    AlignedStore
      (batch_update_bookmarks sampleStore [0, 1] (some "S ") (some 1) (some 1)) :=
  have h : AlignedStore sampleStore := by decide
  have hc := claim_C1_store_ops_alignment sampleStore h "Annex" none 0 1
    (some "Part") none (some 2) "up" [0, 1] (some "S ") (some 1) (some 1)
  ⟨h, (claim_C1_store_ops_alignment sampleStore h "Annex" none 0 1
      (some "Part") none (some 2) "up" [0, 1] (some "S ") (some 1)
      (some 1)).1.1,
    hc.2.1.1, hc.2.2.1.1, hc.2.2.2.1.1, hc.2.2.2.2.1⟩

theorem offsetEntry_roundtrip (k : Int) (b : Bookmark) :
    offsetEntry (-k) (offsetEntry k b) = b := by
  obtain ⟨t, pg, lv⟩ := b
  cases pg with
  | some p =>
    show Bookmark.mk t (some (p + k + -k)) lv = Bookmark.mk t (some p) lv
    rw [Int.add_neg_cancel_right]
  | none => rfl

theorem offsetEntry_none {b : Bookmark} (h : b.page = none) (k : Int) :
    offsetEntry k b = b := by
  unfold offsetEntry
  rw [h]

/-- C2: `apply_offset` with `k` followed by `apply_offset` with `-k`
reconstructs the input list exactly; an entry whose page is null is
returned unchanged at its index for any offset.  (`apply_offset` is
embedded as a pure function building new entries — it cannot mutate its
input.) -/
theorem claim_C2_apply_offset_roundtrip (bs : List Bookmark) (k : Int) :
    apply_offset (apply_offset bs k) (-k) = bs ∧
    ∀ (i : Nat) (b : Bookmark), bs[i]? = some b → b.page = none →
      (apply_offset bs k)[i]? = some b := by
  constructor
  · induction bs with
    | nil => rfl
    | cons b rest ih =>
      simp only [apply_offset, List.map_cons, List.map_map] at *
      rw [offsetEntry_roundtrip]
      exact congrArg (b :: ·) ih
  · intro i b hib hpage
    simp only [apply_offset, List.getElem?_map, hib, Option.map_some']
    rw [offsetEntry_none hpage]

/-- Witness for C2 at a concrete list with one null-page entry. -/
theorem claim_C2_apply_offset_roundtrip_witness :
    apply_offset (apply_offset [⟨"A", some 2, 0⟩, ⟨"B", none, 1⟩] 5) (-5) =
      [⟨"A", some 2, 0⟩, ⟨"B", none, 1⟩] ∧
    (apply_offset [⟨"A", some 2, 0⟩, ⟨"B", none, 1⟩] 5)[1]? =
      some ⟨"B", none, 1⟩ :=
  ⟨(claim_C2_apply_offset_roundtrip [⟨"A", some 2, 0⟩, ⟨"B", none, 1⟩] 5).1,
    (claim_C2_apply_offset_roundtrip [⟨"A", some 2, 0⟩, ⟨"B", none, 1⟩] 5).2
      1 ⟨"B", none, 1⟩ (by decide) (by decide)⟩

/-- C8: when the undo history retains no snapshot older than the current
one (at most one snapshot retained), `undo` returns the failure signal
`false` and leaves the whole store — `bookmarks`, `original_bookmarks`
and `offset` — exactly unchanged. -/
theorem claim_C8_undo_exhausted (s : Store) (h : s.history.length ≤ 1) :
    undo s = (s, false) := by
  obtain ⟨b, o, off, hist⟩ := s
  match hist with
  | [] => rfl
  | [x] => rfl
  | x :: y :: r => simp at h

/-- Witness for C8 at the concrete store with empty history. -/
theorem claim_C8_undo_exhausted_witness :
    undo sampleStore = (sampleStore, false) :=
  claim_C8_undo_exhausted sampleStore (by decide)

/-- C9: on a non-empty store, `move_bookmark` at a boundary —
`move(0, "up")` or `move(length-1, "down")` — is a no-op, not an error:
both the `bookmarks` and the `original_bookmarks` sequences are exactly
as before. -/
theorem claim_C9_move_boundary_noop (s : Store) (h : s.bookmarks ≠ []) :
    ((move_bookmark s 0 "up").bookmarks = s.bookmarks ∧
      (move_bookmark s 0 "up").original_bookmarks = s.original_bookmarks) ∧
    ((move_bookmark s ((s.bookmarks.length : Int) - 1) "down").bookmarks =
        s.bookmarks ∧
      (move_bookmark s ((s.bookmarks.length : Int) - 1)
          "down").original_bookmarks = s.original_bookmarks) := by
  have hl : 0 < s.bookmarks.length := List.length_pos.mpr h
  constructor
  · rw [move_bookmark,
      if_pos (⟨le_refl 0, by exact_mod_cast hl⟩ :
        (0 : Int) ≤ 0 ∧ (0 : Int) < (s.bookmarks.length : Int)),
      if_neg (fun hc => absurd hc.2 (by decide)),
      if_neg (fun hc => absurd hc.1 (by decide))]
    exact ⟨rfl, rfl⟩
  · rw [move_bookmark,
      if_pos (by omega :
        (0 : Int) ≤ (s.bookmarks.length : Int) - 1 ∧
          (s.bookmarks.length : Int) - 1 < (s.bookmarks.length : Int)),
      if_neg (fun hc => absurd hc.1 (by decide)),
      if_neg (fun hc => absurd hc.2 (lt_irrefl _))]
    exact ⟨rfl, rfl⟩

/-- Witness for C9 at the concrete store. -/
theorem claim_C9_move_boundary_noop_witness :
    ((move_bookmark sampleStore 0 "up").bookmarks = sampleStore.bookmarks ∧
      (move_bookmark sampleStore 0 "up").original_bookmarks =
        sampleStore.original_bookmarks) ∧
    ((move_bookmark sampleStore ((sampleStore.bookmarks.length : Int) - 1)
          "down").bookmarks = sampleStore.bookmarks ∧
      (move_bookmark sampleStore ((sampleStore.bookmarks.length : Int) - 1)
          "down").original_bookmarks = sampleStore.original_bookmarks) :=
  claim_C9_move_boundary_noop sampleStore (by decide)

/-- C10: for an index outside `[0, length)` — negative or past the end —
`remove_bookmark`, `update_bookmark` and `move_bookmark` return normally
and leave the entire store unchanged: sequences, offset, and undo
history (no snapshot is recorded for the rejected call). -/
theorem claim_C10_invalid_index_noop (s : Store) (i : Int)
    (h : i < 0 ∨ (s.bookmarks.length : Int) ≤ i) :
    remove_bookmark s i = s ∧
    (∀ t p l, update_bookmark s i t p l = s) ∧
    (∀ d, move_bookmark s i d = s) := by
  have hg : ¬(0 ≤ i ∧ i < (s.bookmarks.length : Int)) := by omega
  refine ⟨?_, fun t p l => ?_, fun d => ?_⟩
  · rw [remove_bookmark, if_neg hg]
  · rw [update_bookmark, if_neg hg]
  · rw [move_bookmark, if_neg hg]

/-- Witness for C10 at the concrete store, index 5 (out of range) and
index -1 (negative). -/
theorem claim_C10_invalid_index_noop_witness :
    remove_bookmark sampleStore 5 = sampleStore ∧
    update_bookmark sampleStore 5 (some "X") none none = sampleStore ∧
    move_bookmark sampleStore (-1) "up" = sampleStore :=
  ⟨(claim_C10_invalid_index_noop sampleStore 5 (by decide)).1,
    (claim_C10_invalid_index_noop sampleStore 5 (by decide)).2.1 (some "X")
      none none,
    (claim_C10_invalid_index_noop sampleStore (-1) (by decide)).2.2 "up"⟩

theorem mdMatch_bounds {l : List Char} {hc : Nat} {rest : List Char}
    (hm : mdMatch l = some (hc, rest)) : 1 ≤ hc ∧ hc ≤ 4 := by
  simp only [mdMatch] at hm
  split at hm
  case isTrue hg =>
    rw [Option.map_eq_some'] at hm
    obtain ⟨r, _, heq⟩ := hm
    cases heq
    exact hg
  case isFalse => exact Option.noConfusion hm

theorem mdLevels_bounds (lines : List (List Char)) :
    ∀ x ∈ mdLevels lines, 1 ≤ x ∧ x ≤ 4 := by
  intro x hx
  rw [mdLevels, List.mem_filterMap] at hx
  obtain ⟨l, _, hf⟩ := hx
  rw [Option.map_eq_some'] at hf
  obtain ⟨⟨hh, rest⟩, hm, hfst⟩ := hf
  exact hfst ▸ mdMatch_bounds hm

theorem mdRank_le {obs : List Nat} (hobs : ∀ x ∈ obs, 1 ≤ x) {h : Nat}
    (hh : h ≤ 4) : mdRank obs h ≤ 3 := by
  rw [mdRank]
  have hnd : ((obs.filter (· < h)).dedup).Nodup := List.nodup_dedup _
  have hsub : ((obs.filter (· < h)).dedup).toFinset ⊆ Finset.Icc 1 3 := by
    intro x hx
    rw [List.mem_toFinset, List.mem_dedup, List.mem_filter] at hx
    obtain ⟨hmem, hlt⟩ := hx
    have h1 := hobs x hmem
    have h2 : x < h := by simpa using hlt
    rw [Finset.mem_Icc]
    omega
  have hcard := Finset.card_le_card hsub
  rw [List.toFinset_card_of_nodup hnd] at hcard
  simpa using hcard

theorem mappingGet_le {obs : List Nat} (hobs : ∀ x ∈ obs, 1 ≤ x) {h : Nat}
    (h1 : 1 ≤ h) (h4 : h ≤ 4) : mappingGet obs h ≤ 3 := by
  rw [mappingGet]
  split
  · exact mdRank_le hobs h4
  · omega

theorem dotLevelL_nonneg (l : List Char) : 0 ≤ dotLevelL l := by
  simp only [dotLevelL]
  cases dotCount l with
  | some d => exact Int.natCast_nonneg d
  | none => exact le_refl 0

theorem baseLevel_bounds (origLine title1 : List Char) :
    0 ≤ baseLevel origLine title1 ∧
      baseLevel origLine title1 ≤ max 3 (dotLevelL title1) := by
  simp only [baseLevel, dotLevelL]
  cases hdc : dotCount title1 with
  | some d => dsimp only; split_ifs <;> constructor <;> omega
  | none => dsimp only; split_ifs <;> constructor <;> omega

theorem levelAfterKeywords_bounds (t : List Char) {lvl : Int} (h0 : 0 ≤ lvl) :
    0 ≤ levelAfterKeywords t lvl ∧ levelAfterKeywords t lvl ≤ max 3 lvl := by
  simp only [levelAfterKeywords]
  split_ifs <;> constructor <;> omega

theorem parseLine_bounds (obs : List Nat) (hobs : ∀ x ∈ obs, 1 ≤ x)
    (origLine : List Char) :
    0 ≤ (parseLine obs origLine).level ∧
      (parseLine obs origLine).level ≤
        max 3 (titleDotLevel (parseLine obs origLine).title) := by
  simp only [parseLine]
  cases hm : mdMatch origLine with
  | none =>
    show 0 ≤ levelAfterKeywords (parsedTitle1 origLine)
        (baseLevel origLine (parsedTitle1 origLine)) ∧
      levelAfterKeywords (parsedTitle1 origLine)
          (baseLevel origLine (parsedTitle1 origLine)) ≤
        max 3 (titleDotLevel (String.mk (parsedTitle1 origLine)))
    have hb := baseLevel_bounds origLine (parsedTitle1 origLine)
    have hk := levelAfterKeywords_bounds (parsedTitle1 origLine) hb.1
    have hd0 : 0 ≤ titleDotLevel (String.mk (parsedTitle1 origLine)) :=
      dotLevelL_nonneg (parsedTitle1 origLine)
    have hb2 : baseLevel origLine (parsedTitle1 origLine) ≤
        max 3 (titleDotLevel (String.mk (parsedTitle1 origLine))) := hb.2
    obtain ⟨hk0, hk1⟩ := hk
    exact ⟨hk0, by omega⟩
  | some pair =>
    obtain ⟨hh, rest⟩ := pair
    show 0 ≤ levelAfterKeywords rest ((mappingGet obs hh : Nat) : Int) ∧
      levelAfterKeywords rest ((mappingGet obs hh : Nat) : Int) ≤
        max 3 (titleDotLevel (String.mk rest))
    have hhb := mdMatch_bounds hm
    have hmgN : mappingGet obs hh ≤ 3 := mappingGet_le hobs hhb.1 hhb.2
    have hmg : ((mappingGet obs hh : Nat) : Int) ≤ 3 := by exact_mod_cast hmgN
    have hmg0 : (0 : Int) ≤ ((mappingGet obs hh : Nat) : Int) :=
      Int.natCast_nonneg _
    have hk := levelAfterKeywords_bounds rest hmg0
    have hd0 : 0 ≤ titleDotLevel (String.mk rest) := dotLevelL_nonneg rest
    obtain ⟨hk0, hk1⟩ := hk
    exact ⟨hk0, by omega⟩

/-- C3 counterexample: on the single line `1.1.1.1.1 Intro 10` the
parser emits an entry whose level is 4, outside the claimed range
`[0,3]` — the dotted chapter-numbering branch raises the level by the
dot count without any cap. -/
theorem claim_C3_counterexample :
    ∃ b ∈ parse_toc_text "1.1.1.1.1 Intro 10", ¬(0 ≤ b.level ∧ b.level ≤ 3) := by
  decide

/-- C3 (amended): every entry produced by the TOC parser has a level at
least 0, and at most `max 3 d` where `d` is the dot count of the dotted
chapter-numbering prefix of the entry's title (so at most 3 whenever the
title carries no dotted numbering deeper than 3 dots). -/
theorem claim_C3_parsed_level_bounds (text : String) (b : Bookmark)
    (hb : b ∈ parse_toc_text text) :
    0 ≤ b.level ∧ b.level ≤ max 3 (titleDotLevel b.title) := by
  simp only [parse_toc_text, List.mem_map] at hb
  obtain ⟨line, _, rfl⟩ := hb
  exact parseLine_bounds (mdLevels (tocLines text.data))
    (fun x hx => (mdLevels_bounds (tocLines text.data) x hx).1) line

/-- Witness for C3 (amended) at the concrete input `1.1.1 Detail 10`. -/
theorem claim_C3_parsed_level_bounds_witness :
    (⟨"1.1.1 Detail", some 10, 2⟩ : Bookmark) ∈
        parse_toc_text "1.1.1 Detail 10" ∧
    (0 ≤ (Bookmark.mk "1.1.1 Detail" (some 10) 2).level ∧
      (Bookmark.mk "1.1.1 Detail" (some 10) 2).level ≤
        max 3 (titleDotLevel (Bookmark.mk "1.1.1 Detail" (some 10) 2).title)) :=
  ⟨by decide, claim_C3_parsed_level_bounds "1.1.1 Detail 10"
    ⟨"1.1.1 Detail", some 10, 2⟩ (by decide)⟩

/-- C6 counterexample: parsing `# Title 5` and `## Sub 6` does not give
the claimed titles `Title` and `Sub` — the Markdown branch replaces the
title with the whole captured remainder of the original line, which
still ends with the page digits. -/
theorem claim_C6_counterexample :
    parse_toc_text "# Title 5\n## Sub 6" ≠
      [⟨"Title", some 5, 0⟩, ⟨"Sub", some 6, 1⟩] := by
  decide

/-- C6 (amended): parsing `"# Title 5\n## Sub 6"` yields exactly two
entries with pages 5 and 6 and levels 0 and 1 (the dense ranks of the
observed hash-counts 1 and 2), but with titles `Title 5` and `Sub 6`:
the Markdown capture keeps the trailing page digits in the title. -/
theorem claim_C6_markdown_parse :
    parse_toc_text "# Title 5\n## Sub 6" =
      [⟨"Title 5", some 5, 0⟩, ⟨"Sub 6", some 6, 1⟩] := by
  decide

/-- C7: parsing the single line `1.1.1 Detail 10` yields exactly the
entry with title `1.1.1 Detail` (the dotted numbering prefix is kept —
only the Markdown path replaces the title), page 10 from the trailing
digits, and level 2 from the two dots of the matched prefix. -/
theorem claim_C7_dotted_numbering_parse :
    parse_toc_text "1.1.1 Detail 10" = [⟨"1.1.1 Detail", some 10, 2⟩] := by
  decide

theorem attachStep_added {bs : List Bookmark} {pc : Nat} {st : GenState}
    {i : Nat} {b : Bookmark} (h : st.added = st.nodes.length) :
    (attachStep bs pc st i b).added = (attachStep bs pc st i b).nodes.length := by
  obtain ⟨t, pg, lv⟩ := b
  cases pg with
  | none => exact h
  | some p =>
    dsimp only [attachStep]
    split_ifs <;> simp [List.length_append, h]

theorem attachGo_added (bs : List Bookmark) (pc : Nat) :
    ∀ (l : List Bookmark) (i : Nat) (st : GenState),
      st.added = st.nodes.length →
      (attachGo bs pc i l st).added = (attachGo bs pc i l st).nodes.length
  | [], _, _, h => h
  | b :: rest, i, st, h =>
    attachGo_added bs pc rest (i + 1) _ (attachStep_added h)

theorem attachStep_warnings_sub {bs : List Bookmark} {pc : Nat}
    {st : GenState} {i : Nat} {b : Bookmark} :
    ∀ w ∈ st.warnings, w ∈ (attachStep bs pc st i b).warnings := by
  intro w hw
  obtain ⟨t, pg, lv⟩ := b
  cases pg with
  | none => exact List.mem_append_left _ hw
  | some p =>
    dsimp only [attachStep]
    split_ifs <;> first
      | exact hw
      | exact List.mem_append_left _ hw

theorem attachGo_warnings_sub (bs : List Bookmark) (pc : Nat) :
    ∀ (l : List Bookmark) (i : Nat) (st : GenState),
      ∀ w ∈ st.warnings, w ∈ (attachGo bs pc i l st).warnings
  | [], _, _, _, hw => hw
  | b :: rest, i, st, w, hw =>
    attachGo_warnings_sub bs pc rest (i + 1) _ w (attachStep_warnings_sub w hw)

theorem attachStep_invalid {bs : List Bookmark} {pc : Nat} {st : GenState}
    {i : Nat} {b : Bookmark} (hv : validPage b pc = false) :
    attachStep bs pc st i b = { st with warnings := st.warnings ++ [i] } := by
  obtain ⟨t, pg, lv⟩ := b
  cases pg with
  | none => rfl
  | some p =>
    have hng : ¬(1 ≤ p ∧ p ≤ (pc : Int)) := by
      intro hc
      dsimp only [validPage] at hv
      rw [decide_eq_true hc.1, decide_eq_true hc.2] at hv
      exact Bool.noConfusion hv
    dsimp only [attachStep]
    rw [if_neg hng]

theorem attachStep_nodes {bs : List Bookmark} {pc : Nat} {st : GenState}
    {i : Nat} {b : Bookmark} :
    ∀ n ∈ (attachStep bs pc st i b).nodes,
      n ∈ st.nodes ∨ (n.idx = i ∧ validPage b pc = true) := by
  intro n hn
  obtain ⟨t, pg, lv⟩ := b
  cases pg with
  | none => exact Or.inl hn
  | some p =>
    dsimp only [attachStep] at hn
    split_ifs at hn with h1 h2 h3
    · rcases List.mem_append.mp hn with hn | hn
      · exact Or.inl hn
      · refine Or.inr ⟨by rw [List.mem_singleton.mp hn], ?_⟩
        dsimp only [validPage]
        rw [decide_eq_true h1.1, decide_eq_true h1.2]
        rfl
    · rcases List.mem_append.mp hn with hn | hn
      · exact Or.inl hn
      · refine Or.inr ⟨by rw [List.mem_singleton.mp hn], ?_⟩
        dsimp only [validPage]
        rw [decide_eq_true h1.1, decide_eq_true h1.2]
        rfl
    · exact Or.inl hn
    · exact Or.inl hn

theorem attachGo_nodes (bs : List Bookmark) (pc : Nat) :
    ∀ (l : List Bookmark) (i : Nat) (st : GenState),
      ∀ n ∈ (attachGo bs pc i l st).nodes,
        n ∈ st.nodes ∨
          ∃ j b, l[j]? = some b ∧ n.idx = i + j ∧ validPage b pc = true := by
  intro l
  induction l with
  | nil => intro i st n hn; exact Or.inl hn
  | cons b rest ih =>
    intro i st n hn
    rcases ih (i + 1) (attachStep bs pc st i b) n hn with hn' | ⟨j, b', hj, hidx, hvb⟩
    · rcases attachStep_nodes n hn' with hn'' | ⟨hidx, hvb⟩
      · exact Or.inl hn''
      · exact Or.inr ⟨0, b, by simp, by omega, hvb⟩
    · refine Or.inr ⟨j + 1, b', ?_, by omega, hvb⟩
      simpa using hj

theorem attachGo_warn (bs : List Bookmark) (pc : Nat) :
    ∀ (l : List Bookmark) (i : Nat) (st : GenState) (j : Nat) (b : Bookmark),
      l[j]? = some b → validPage b pc = false →
      (i + j) ∈ (attachGo bs pc i l st).warnings := by
  intro l
  induction l with
  | nil => intro i st j b hj _; simp at hj
  | cons b0 rest ih =>
    intro i st j b hj hv
    cases j with
    | zero =>
      have hb : b = b0 := by simpa using hj.symm
      subst hb
      show (i + 0) ∈ (attachGo bs pc (i + 1) rest (attachStep bs pc st i b)).warnings
      apply attachGo_warnings_sub
      rw [attachStep_invalid hv]
      exact List.mem_append_right _ (List.mem_singleton.mpr (by omega))
    | succ j' =>
      have h2 : i + (j' + 1) = (i + 1) + j' := by omega
      rw [h2]
      exact ih (i + 1) (attachStep bs pc st i b0) j' b (by simpa using hj) hv

/-- C4: with a non-empty bookmark list (the generator's precondition),
the run returns success; the reported `bookmarks_added` count equals the
number of nodes actually attached; and every entry whose page is null or
outside `[1, pageCount]` gets no outline node, only a warning, while
processing continues over the other entries. -/
theorem claim_C4_skipped_entries (bs : List Bookmark) (pc : Nat)
    (hne : bs ≠ []) :
    (generate_pdf_with_bookmarks bs pc).1 = true ∧
    (generate_pdf_with_bookmarks bs pc).2.added =
      (generate_pdf_with_bookmarks bs pc).2.nodes.length ∧
    ∀ i b, bs[i]? = some b → validPage b pc = false →
      (∀ n ∈ (generate_pdf_with_bookmarks bs pc).2.nodes, n.idx ≠ i) ∧
      i ∈ (generate_pdf_with_bookmarks bs pc).2.warnings := by
  have hie : bs.isEmpty = false := by
    cases bs with
    | nil => exact absurd rfl hne
    | cons _ _ => rfl
  have hgen : generate_pdf_with_bookmarks bs pc = (true, attachAll bs pc) := by
    rw [generate_pdf_with_bookmarks, hie]
    rfl
  rw [hgen]
  refine ⟨rfl, attachGo_added bs pc bs 0 emptyGen rfl, ?_⟩
  intro i b hib hv
  constructor
  · intro n hn hni
    rcases attachGo_nodes bs pc bs 0 emptyGen n hn with hn0 | ⟨j, b', hj, hidx, hvb⟩
    · simp [emptyGen] at hn0
    · have hj' : j = i := by omega
      subst hj'
      rw [hib] at hj
      cases hj
      rw [hvb] at hv
      exact Bool.noConfusion hv
  · have := attachGo_warn bs pc bs 0 emptyGen i b hib hv
    simpa using this

/-- Witness for C4 at a concrete three-entry list whose middle entry has
a null page and whose last entry's page exceeds the 3-page document. -/
theorem claim_C4_skipped_entries_witness :
    (generate_pdf_with_bookmarks genSample 3).1 = true ∧
    (generate_pdf_with_bookmarks genSample 3).2.added =
      (generate_pdf_with_bookmarks genSample 3).2.nodes.length ∧
    ((∀ n ∈ (generate_pdf_with_bookmarks genSample 3).2.nodes, n.idx ≠ 1) ∧
      1 ∈ (generate_pdf_with_bookmarks genSample 3).2.warnings) :=
  have h := claim_C4_skipped_entries genSample 3 (by decide)
  ⟨h.1, h.2.1, h.2.2 1 ⟨"B", none, 1⟩ (by decide) (by decide)⟩

theorem find_reverse_max {l : List Nat} (hs : List.Pairwise (· < ·) l)
    {p : Nat → Bool} {j : Nat} (hf : l.reverse.find? p = some j) :
    ∀ k ∈ l, p k = true → k ≤ j := by
  induction l using List.reverseRecOn with
  | nil => simp at hf
  | append_singleton l' a ih =>
    rw [List.reverse_append, List.reverse_singleton, List.singleton_append] at hf
    rw [List.pairwise_append] at hs
    obtain ⟨hs', _, hlt⟩ := hs
    intro k hk hpk
    rcases List.mem_append.mp hk with hk | hk
    · cases hpa : p a with
      | true =>
        rw [List.find?_cons_of_pos _ hpa] at hf
        have : a = j := by injection hf
        exact le_of_lt (this ▸ hlt k hk a (List.mem_singleton.mpr rfl))
      | false =>
        rw [List.find?_cons_of_neg _ (by simp [hpa])] at hf
        exact ih hs' hf k hk hpk
    · rw [List.mem_singleton.mp hk]
      cases hpa : p a with
      | true =>
        rw [List.find?_cons_of_pos _ hpa] at hf
        have : a = j := by injection hf
        omega
      | false =>
        rw [List.mem_singleton.mp hk] at hpk
        rw [hpk] at hpa
        exact Bool.noConfusion hpa

theorem attachStep_keys (bs : List Bookmark) (pc : Nat) (st : GenState)
    (i : Nat) (b : Bookmark) :
    (attachStep bs pc st i b).keys = st.keys ∨
    (attachStep bs pc st i b).keys = st.keys ++ [i] := by
  obtain ⟨t, pg, lv⟩ := b
  cases pg with
  | none => exact Or.inl rfl
  | some p =>
    dsimp only [attachStep]
    split_ifs <;> first
      | exact Or.inr rfl
      | exact Or.inl rfl

theorem attachGo_keys_sorted (bs : List Bookmark) (pc : Nat) :
    ∀ (l : List Bookmark) (i : Nat) (st : GenState),
      List.Pairwise (· < ·) st.keys → (∀ k ∈ st.keys, k < i) →
      List.Pairwise (· < ·) (attachGo bs pc i l st).keys := by
  intro l
  induction l with
  | nil => intro i st hs _; exact hs
  | cons b rest ih =>
    intro i st hs hbound
    apply ih (i + 1) (attachStep bs pc st i b)
    · rcases attachStep_keys bs pc st i b with hk | hk
      · rw [hk]; exact hs
      · rw [hk, List.pairwise_append]
        exact ⟨hs, List.pairwise_singleton _ _,
          fun x hx y hy => (List.mem_singleton.mp hy) ▸ hbound x hx⟩
    · intro k hk
      rcases attachStep_keys bs pc st i b with hk' | hk'
      · rw [hk'] at hk
        exact Nat.lt_succ_of_lt (hbound k hk)
      · rw [hk'] at hk
        rcases List.mem_append.mp hk with hk | hk
        · exact Nat.lt_succ_of_lt (hbound k hk)
        · rw [List.mem_singleton.mp hk]
          exact Nat.lt_succ_self i

/-- C5: on the sequence `[{level:0,page:1},{level:1,page:2},{level:0,page:3}]`
with a 3-page document, the writer attaches entry 1 as a child of the
node for entry 0 and entry 2 as a new top-level node; and in general the
parent search of a level>0 entry returns the nearest preceding recorded
entry (greatest recorded key `< i`) whose level is strictly below the
entry's level, returning nothing (top-level fallback) when no recorded
entry qualifies — the keys recorded by the writer loop are always in
strictly increasing insertion order, so reverse insertion order is
exactly nearest-first. -/
theorem claim_C5_parent_rule :
    (attachAll demo5 3).nodes =
      [⟨0, "A", 0, none⟩, ⟨1, "B", 1, some 0⟩, ⟨2, "C", 2, none⟩] ∧
    (∀ (bs : List Bookmark) (keys : List Nat) (i : Nat) (lvl : Int),
      List.Pairwise (· < ·) keys →
      (∀ j, parentSearch bs keys i lvl = some j →
        j ∈ keys ∧ j < i ∧ levelAt bs j < lvl ∧
          ∀ k ∈ keys, k < i → levelAt bs k < lvl → k ≤ j) ∧
      (parentSearch bs keys i lvl = none →
        ∀ k ∈ keys, ¬(k < i ∧ levelAt bs k < lvl))) ∧
    (∀ (bs : List Bookmark) (pc : Nat),
      List.Pairwise (· < ·) (attachAll bs pc).keys) := by
  refine ⟨by decide, ?_, ?_⟩
  · intro bs keys i lvl hs
    constructor
    · intro j hj
      have hp := List.find?_some hj
      have hmem : j ∈ keys := List.mem_reverse.mp (List.mem_of_find?_eq_some hj)
      rw [Bool.and_eq_true, decide_eq_true_iff, decide_eq_true_iff] at hp
      refine ⟨hmem, hp.1, hp.2, ?_⟩
      intro k hk hki hkl
      apply find_reverse_max hs hj k hk
      rw [Bool.and_eq_true, decide_eq_true_iff, decide_eq_true_iff]
      exact ⟨hki, hkl⟩
    · intro hn k hk hc
      have := List.find?_eq_none.mp hn k (List.mem_reverse.mpr hk)
      rw [Bool.and_eq_true, decide_eq_true_iff, decide_eq_true_iff] at this
      exact this ⟨hc.1, hc.2⟩
  · intro bs pc
    exact attachGo_keys_sorted bs pc bs 0 emptyGen (List.Pairwise.nil)
      (fun k hk => absurd hk (List.not_mem_nil k))

/-- Witness for C5: the concrete node list, and the parent-search
characterization discharged at the concrete recorded keys `[0]` of the
example (for entry 1 at level 1). -/
theorem claim_C5_parent_rule_witness :
    (attachAll demo5 3).nodes =
      [⟨0, "A", 0, none⟩, ⟨1, "B", 1, some 0⟩, ⟨2, "C", 2, none⟩] ∧
    ((∀ j, parentSearch demo5 [0] 1 1 = some j →
        j ∈ [0] ∧ j < 1 ∧ levelAt demo5 j < 1 ∧
          ∀ k ∈ [0], k < 1 → levelAt demo5 k < 1 → k ≤ j) ∧
      (parentSearch demo5 [0] 1 1 = none →
        ∀ k ∈ [0], ¬(k < 1 ∧ levelAt demo5 k < 1))) :=
  ⟨claim_C5_parent_rule.1,
    claim_C5_parent_rule.2.1 demo5 [0] 1 1 (List.pairwise_singleton _ _)⟩

end PdfBookmark
